import Mathlib

/-!
A shallow embedding in Lean 4 of the basic Forth interpreter
(`src/src/lib.rs`).  Rust strings are modelled as Lean strings (char
lists); the Rust `HashMap<String, Vec<Item>>` is modelled as an
association list with unique-key insert/update semantics; the mutable
interpreter state (`word_map`, `stack`) is threaded explicitly.  The
stack is a `List Int` whose head is the top of the stack (the last
element of the Rust `Vec`).  `i32` values are modelled as `Int`, and
every arithmetic result is reduced into the `i32` range by `wrap_i32`
(reduction modulo `2 ^ 32`), matching the two's-complement wraparound
of release-mode Rust; division is `Int.tdiv`, the truncating division
of Rust's `/` on `i32` (see `eval_oper` for the two trap cases).
Unicode case folding and Unicode classification are modelled on the
fragments the interpreter's grammar can observe (ASCII letters for
case folding; the exact Unicode code-point lists for `is_control` and
`is_whitespace`).
-/

deriving instance DecidableEq for Except

namespace ForthSpec

/-- Type `ArithWord` from the source: the four arithmetic builtins. -/
inductive ArithWord
  | add
  | sub
  | mul
  | div
deriving DecidableEq

/-- Type `StackWord` from the source: the four stack-manipulation builtins. -/
inductive StackWord
  | dup
  | drop
  | swap
  | over
deriving DecidableEq

/-- Type `Symbol` from the source: the two definition markers `:` and `;`. -/
inductive Symbol
  | colon
  | semiColon
deriving DecidableEq

/-- Type `Exec` from the source: an executable instruction. -/
inductive Exec
  | arith_ (o : ArithWord)
  | stack_ (c : StackWord)
  | value_ (v : Int)
deriving DecidableEq

/-- Type `Item` from the source: an executable instruction or a marker. -/
inductive Item
  | exec_ (e : Exec)
  | symbol_ (s : Symbol)
deriving DecidableEq

/-- Type `Error` from the source. -/
inductive Error
  | divisionByZero
  | stackUnderflow
  | unknownWord
  | invalidWord
deriving DecidableEq

/-- Type `ParseState` from the source: `Normal`, `CustomInit` (the next token
names the word being defined), `Custom` (tokens extend its body). -/
inductive ParseState
  | normal
  | customInit
  | custom
deriving DecidableEq

/-- The `HashMap<String, Vec<Item>>` word map, as an association list with
unique keys (insert replaces an existing binding). -/
abbrev WordMap : Type := List (String × List Item)

/-- Rust `HashMap::get`: first (unique) binding of the key. -/
def wm_lookup : WordMap → String → Option (List Item)
  | [], _ => none
  | (k', v') :: rest, k => if k' = k then some v' else wm_lookup rest k

/-- Rust `HashMap::insert`: replace the binding of the key, or add it. -/
def wm_insert : WordMap → String → List Item → WordMap
  | [], k, v => [(k, v)]
  | (k', v') :: rest, k, v =>
      if k' = k then (k, v) :: rest else (k', v') :: wm_insert rest k v

/-- Rust `HashMap::get_mut` followed by pushing `v`'s items onto the stored
body; a missing key leaves the map unchanged (the `None => ()` arm). -/
def wm_append : WordMap → String → List Item → WordMap
  | [], _, _ => []
  | (k', v') :: rest, k, v =>
      if k' = k then (k', v' ++ v) :: rest else (k', v') :: wm_append rest k v

/-- Function `make_word_map` from the source: the builtin dictionary. -/
def make_word_map : WordMap :=
  [ ("DUP",  [Item.exec_ (Exec.stack_ StackWord.dup)]),
    ("DROP", [Item.exec_ (Exec.stack_ StackWord.drop)]),
    ("SWAP", [Item.exec_ (Exec.stack_ StackWord.swap)]),
    ("OVER", [Item.exec_ (Exec.stack_ StackWord.over)]),
    ("+",    [Item.exec_ (Exec.arith_ ArithWord.add)]),
    ("-",    [Item.exec_ (Exec.arith_ ArithWord.sub)]),
    ("*",    [Item.exec_ (Exec.arith_ ArithWord.mul)]),
    ("/",    [Item.exec_ (Exec.arith_ ArithWord.div)]),
    (":",    [Item.symbol_ Symbol.colon]),
    (";",    [Item.symbol_ Symbol.semiColon]) ]

/-- The interpreter state (`struct Forth`). -/
structure Forth where
  wordMap : WordMap
  stack : List Int
deriving DecidableEq

/-- Constructor `Forth::new`. -/
def Forth.new : Forth :=
  { wordMap := make_word_map, stack := [] }

/-- Rust `char::is_control`: Unicode category Cc,
exactly U+0000..U+001F and U+007F..U+009F. -/
def is_control (c : Char) : Bool :=
  c.toNat < 32 || (127 ≤ c.toNat && c.toNat ≤ 159)

/-- Rust `char::is_whitespace`: the Unicode White_Space code points. -/
def is_whitespace (c : Char) : Bool :=
  (9 ≤ c.toNat && c.toNat ≤ 13) || c.toNat = 32 || c.toNat = 133 ||
  c.toNat = 160 || c.toNat = 5760 || (8192 ≤ c.toNat && c.toNat ≤ 8202) ||
  c.toNat = 8232 || c.toNat = 8233 || c.toNat = 8239 || c.toNat = 8287 ||
  c.toNat = 12288

/-- Function `to_space_separated` from the source: replace control chars by a space. -/
def to_space_separated (cs : List Char) : List Char :=
  cs.map fun c => if is_control c then ' ' else c

/-- Rust `str::split_whitespace`, accumulating the current (reversed)
fragment; empty fragments are discarded. -/
def split_whitespace_go : List Char → List Char → List String
  | [], [] => []
  | [], cur => [String.mk cur.reverse]
  | c :: cs, cur =>
      if is_whitespace c then
        match cur with
        | [] => split_whitespace_go cs []
        | _ => String.mk cur.reverse :: split_whitespace_go cs []
      else split_whitespace_go cs (c :: cur)

/-- Rust `str::to_uppercase`, on the ASCII fragment (Lean's `Char.toUpper`). -/
def str_upper (s : String) : String :=
  String.mk (s.data.map Char.toUpper)

/-- The tokenizer used by `input_parse`: uppercase the line, replace
control characters by spaces, split on whitespace. -/
def tokenize (s : String) : List String :=
  split_whitespace_go (to_space_separated (s.data.map Char.toUpper)) []

/-- One decimal ASCII digit character (used by `to_string`). -/
def digit_char (d : Nat) : Char :=
  if d = 0 then '0' else if d = 1 then '1' else if d = 2 then '2'
  else if d = 3 then '3' else if d = 4 then '4' else if d = 5 then '5'
  else if d = 6 then '6' else if d = 7 then '7' else if d = 8 then '8'
  else '9'

/-- Decimal digits of a natural number, most significant first, consed
onto `acc`; `fuel` bounds the recursion and any `fuel ≥ n` is exact. -/
def nat_digits_core : Nat → Nat → List Char → List Char
  | 0, _, acc => acc
  | fuel + 1, n, acc =>
      if n < 10 then digit_char n :: acc
      else nat_digits_core fuel (n / 10) (digit_char (n % 10) :: acc)

/-- Decimal representation of a natural number. -/
def nat_to_string (n : Nat) : List Char :=
  nat_digits_core (n + 1) n []

/-- Rust `i32::to_string`: optional leading minus, then decimal digits. -/
def value_to_string (v : Int) : List Char :=
  if v < 0 then '-' :: nat_to_string (-v).toNat else nat_to_string v.toNat

/-- Numeric value of one ASCII digit character, if it is one. -/
def digit_val (c : Char) : Option Nat :=
  if 48 ≤ c.toNat ∧ c.toNat ≤ 57 then some (c.toNat - 48) else none

/-- All-digit decimal parse of a nonempty character list. -/
def parse_nat_digits (cs : List Char) : Option Nat :=
  match cs with
  | [] => none
  | _ =>
      cs.foldl (fun acc c => acc.bind fun n => (digit_val c).map fun d => 10 * n + d)
        (some 0)

/-- Rust `str::parse::<i32>`: optional sign, one or more ASCII digits,
value within the `i32` range. -/
def parse_i32 (s : String) : Option Int :=
  match s.data with
  | '-' :: rest =>
      (parse_nat_digits rest).bind fun n =>
        if n ≤ 2 ^ 31 then some (-(n : Int)) else none
  | '+' :: rest =>
      (parse_nat_digits rest).bind fun n =>
        if n ≤ 2 ^ 31 - 1 then some ((n : Int)) else none
  | cs =>
      (parse_nat_digits cs).bind fun n =>
        if n ≤ 2 ^ 31 - 1 then some ((n : Int)) else none

/-- Function `str_to_item` from the source: the Resolver.  A numeric token becomes
a single `Literal`; otherwise the uppercased token is looked up in the
word map; a miss is `UnknownWord`. -/
def str_to_item (wm : WordMap) (s : String) : Except Error (List Item) :=
  match parse_i32 s with
  | some v => Except.ok [Item.exec_ (Exec.value_ v)]
  | none =>
      match wm_lookup wm (str_upper s) with
      | some w => Except.ok w
      | none => Except.error Error.unknownWord

/-- The local mutable state of `input_parse`: the accumulated output
items, the parse state, the current custom word name, and the word map. -/
structure PAcc where
  items : List Item
  state : ParseState
  curr : String
  wm : WordMap
deriving DecidableEq

/-- The initial `input_parse` state. -/
def init_acc (wm : WordMap) : PAcc :=
  { items := [], state := ParseState.normal, curr := "", wm := wm }

/-- Whether an item is a `Literal` (`Item::Exec_(Exec::Value_(_))`). -/
def is_value_item : Item → Bool
  | Item.exec_ (Exec.value_ _) => true
  | _ => false

/-- One iteration of the `input_parse` token loop. -/
def parse_token (acc : PAcc) (t : String) : Except Error PAcc :=
  match acc.state with
  | ParseState.normal =>
      match str_to_item acc.wm t with
      | Except.ok v =>
          match v.getLast? with
          | none => Except.error Error.invalidWord
          | some last =>
              if last = Item.symbol_ Symbol.colon then
                Except.ok { acc with state := ParseState.customInit }
              else
                Except.ok { acc with items := acc.items ++ v }
      | Except.error e => Except.error e
  | ParseState.customInit =>
      match str_to_item acc.wm t with
      | Except.ok v =>
          match v.getLast? with
          | none => Except.error Error.invalidWord
          | some last =>
              if is_value_item last then Except.error Error.invalidWord
              else
                Except.ok { acc with
                  state := ParseState.custom, curr := t,
                  wm := wm_insert acc.wm t [] }
      | Except.error _ =>
          Except.ok { acc with
            state := ParseState.custom, curr := t,
            wm := wm_insert acc.wm t [] }
  | ParseState.custom =>
      match str_to_item acc.wm t with
      | Except.ok v =>
          match v.getLast? with
          | none => Except.error Error.invalidWord
          | some last =>
              if last = Item.symbol_ Symbol.semiColon then
                Except.ok { acc with state := ParseState.normal }
              else
                Except.ok { acc with wm := wm_append acc.wm acc.curr v }
      | Except.error e => Except.error e

/-- The `input_parse` token loop; an error stops the loop, keeping the
word-map mutations already made (the Rust `self` keeps them too). -/
def parse_tokens (acc : PAcc) : List String → PAcc × Option Error
  | [] => (acc, none)
  | t :: ts =>
      match parse_token acc t with
      | Except.ok acc' => parse_tokens acc' ts
      | Except.error e => (acc, some e)

/-- Function `input_parse` from the source: run the token loop over the tokenized
line, then require the final state to be `Normal`. -/
def input_parse (wm : WordMap) (input : String) : PAcc × Option Error :=
  match parse_tokens (init_acc wm) (tokenize input) with
  | (acc, some e) => (acc, some e)
  | (acc, none) =>
      match acc.state with
      | ParseState.normal => (acc, none)
      | _ => (acc, some Error.invalidWord)

/-- Two's-complement reduction of an integer into the `i32` range
`[-2147483648, 2147483647]`: the value `i32` wrapping arithmetic
produces (`2147483648 = 2 ^ 31`, `4294967296 = 2 ^ 32`). -/
def wrap_i32 (z : Int) : Int :=
  (z + 2147483648) % 4294967296 - 2147483648

/-- Function `eval_oper` from the source: `a` was the top of the stack, `b` the
element under it.  The Rust operands are `i32`, so `+`, `-` and `*`
reduce modulo `2 ^ 32` into the `i32` range (release-mode wraparound;
debug builds trap on overflow, and the spec fixes no overflow
contract).  Rust `/` truncates toward zero and never wraps; its one
overflow case `i32::MIN / -1` traps in every build, and `wrap_i32`
totalizes it exactly as `i32::wrapping_div` does, while being the
identity on every other reachable quotient. -/
def eval_oper (a b : Int) (o : ArithWord) : Except Error Int :=
  match o with
  | ArithWord.add => Except.ok (wrap_i32 (b + a))
  | ArithWord.sub => Except.ok (wrap_i32 (b - a))
  | ArithWord.mul => Except.ok (wrap_i32 (b * a))
  | ArithWord.div =>
      match a with
      | 0 => Except.error Error.divisionByZero
      | _ => Except.ok (wrap_i32 (Int.tdiv b a))

/-- Function `eval_command` from the source: a stack word applied to the stack
(head = top).  The returned stack reflects the pops already performed
when the command fails (`Swap` pops its first operand before noticing
the second is missing; `Dup`, `Drop` and `Over` fail without popping). -/
def eval_command (stack : List Int) (c : StackWord) : List Int × Option Error :=
  match c with
  | StackWord.dup =>
      match stack with
      | [] => ([], some Error.stackUnderflow)
      | a :: rest => (a :: a :: rest, none)
  | StackWord.drop =>
      match stack with
      | [] => ([], some Error.stackUnderflow)
      | _ :: rest => (rest, none)
  | StackWord.swap =>
      match stack with
      | a :: b :: rest => (b :: a :: rest, none)
      | _ => ([], some Error.stackUnderflow)
  | StackWord.over =>
      match stack with
      | a :: b :: rest => (b :: a :: b :: rest, none)
      | _ => (stack, some Error.stackUnderflow)

/-- The evaluator loop of `Forth::eval`: execute the resolved items in
order against the stack; `Symbol_` items are skipped (`_ => ()`); the
first error stops execution, keeping the stack mutations already made
(for an arithmetic word both operands are popped before `eval_oper`
runs, and they stay popped when it fails). -/
def run_items (stack : List Int) : List Item → List Int × Option Error
  | [] => (stack, none)
  | Item.symbol_ _ :: rest => run_items stack rest
  | Item.exec_ (Exec.value_ v) :: rest => run_items (v :: stack) rest
  | Item.exec_ (Exec.stack_ c) :: rest =>
      match eval_command stack c with
      | (stack', none) => run_items stack' rest
      | (stack', some e) => (stack', some e)
  | Item.exec_ (Exec.arith_ o) :: rest =>
      match stack with
      | a :: b :: stack' =>
          match eval_oper a b o with
          | Except.ok v => run_items (v :: stack') rest
          | Except.error e => (stack', some e)
      | _ => ([], some Error.stackUnderflow)

/-- Method `Forth::eval`: parse the line, then execute the resolved items.  On a
parse error the stack is untouched but the word-map mutations persist;
on an execution error the partial stack mutations persist. -/
def Forth.eval (f : Forth) (input : String) : Forth × Option Error :=
  match input_parse f.wordMap input with
  | (acc, some e) => ({ wordMap := acc.wm, stack := f.stack }, some e)
  | (acc, none) =>
      match run_items f.stack acc.items with
      | (stack', e) => ({ wordMap := acc.wm, stack := stack' }, e)

/-- Rust `str::trim` on a char list: drop whitespace from both ends. -/
def trim_chars (cs : List Char) : List Char :=
  (((cs.dropWhile is_whitespace).reverse.dropWhile is_whitespace)).reverse

/-- Function `format_stack` from the source: append each value's decimal text plus
a space, bottom of the stack first, then trim. -/
def format_stack (f : Forth) : String :=
  String.mk
    (trim_chars
      (f.stack.reverse.foldl (fun acc v => acc ++ value_to_string v ++ [' ']) []))

/-- Modelled from the spec (`render_stack`): decimal representations,
bottom-to-top, separated by single spaces, no leading or trailing
whitespace, empty text for the empty stack.  Used only to compare
`format_stack` against the spec's description. -/
def spec_render : List Int → List Char
  | [] => []
  | [v] => value_to_string v
  | v :: w :: rest => value_to_string v ++ ' ' :: spec_render (w :: rest)

/-- Whether an item list is free of `Symbol_` markers. -/
def marker_free (l : List Item) : Bool :=
  l.all fun i =>
    match i with
    | Item.symbol_ _ => false
    | _ => true

/-- The interpreter state after `eval(": FOO DUP ;")` on a fresh
interpreter (used by the redefinition scenario of claim C4). -/
def forth_after_foo : Forth :=
  (Forth.eval Forth.new ": FOO DUP ;").1

/-- The flattened rendering built by `format_stack` before trimming:
each value's decimal text followed by one space. -/
def raw_render : List Int → List Char
  | [] => []
  | v :: rest => (value_to_string v ++ [' ']) ++ raw_render rest

/-- A parse accumulator in the `CustomInit` state over the builtin
dictionary (a concrete input for the name-restriction claim C6). -/
def name_acc : PAcc :=
  { items := [], state := ParseState.customInit, curr := "", wm := make_word_map }

/-- The builtin dictionary extended with an empty-bodied word `FOO`
(the state `": FOO ;"` leaves behind; a concrete input for claim C9). -/
def empty_foo_wm : WordMap :=
  wm_insert make_word_map "FOO" []

/- ========================== theorems ========================== -/

/-- Evaluating `eval_oper` on `Div` with a nonzero divisor is the
wrapped truncating quotient. -/
theorem eval_oper_div_ne_zero (a b : Int) (ha : a ≠ 0) :
    eval_oper a b ArithWord.div = Except.ok (wrap_i32 (Int.tdiv b a)) := by
  simp only [eval_oper]

/-- Within the `i32` range the wraparound reduction is the identity. -/
theorem wrap_i32_eq_self (z : Int) (h1 : -2147483648 ≤ z) (h2 : z < 2147483648) :
    wrap_i32 z = z := by
  unfold wrap_i32
  omega

/-- A truncating quotient of an in-range dividend by a nonzero divisor
stays in the `i32` range, except for `i32::MIN / -1` (where the Rust
program traps). -/
theorem tdiv_in_i32_range (a b : Int) (ha : a ≠ 0)
    (hb1 : -2147483648 ≤ b) (hb2 : b < 2147483648)
    (hex : ¬(b = -2147483648 ∧ a = -1)) :
    -2147483648 ≤ Int.tdiv b a ∧ Int.tdiv b a < 2147483648 := by
  have hq : (Int.tdiv b a).natAbs = b.natAbs / a.natAbs := Int.natAbs_tdiv b a
  have hle : (Int.tdiv b a).natAbs ≤ b.natAbs := by
    rw [hq]
    exact Nat.div_le_self _ _
  by_cases hcase : (Int.tdiv b a).natAbs = 2147483648
  · have hmul : b.natAbs / a.natAbs * a.natAbs ≤ b.natAbs := Nat.div_mul_le_self _ _
    rw [← hq, hcase] at hmul
    have han : a.natAbs = 1 := by omega
    have hq2 : b.natAbs / a.natAbs = 2147483648 := by
      rw [← hq]
      exact hcase
    have hbn : b.natAbs = 2147483648 := by
      rw [han, Nat.div_one] at hq2
      exact hq2
    have hbv : b = -2147483648 := by omega
    have hav : a = 1 ∨ a = -1 := by omega
    rcases hav with h | h
    · subst h
      subst hbv
      constructor <;> decide
    · exact absurd ⟨hbv, h⟩ hex
  · omega

/-- C2: with at least two elements and a zero on top, `Div` pops both
operands, pushes nothing, and fails with `DivisionByZero`; concretely
`evaluate("1 0 /")` fails that way and leaves the stack empty. -/
theorem claim2_div_by_zero :
    (∀ (b : Int) (s : List Int) (rest : List Item),
      run_items (0 :: b :: s) (Item.exec_ (Exec.arith_ ArithWord.div) :: rest) =
        (s, some Error.divisionByZero))
    ∧ (Forth.eval Forth.new "1 0 /").2 = some Error.divisionByZero
    ∧ (Forth.eval Forth.new "1 0 /").1.stack = [] :=
  ⟨fun _ _ _ => rfl, by decide, by decide⟩

/-- C3 is refuted at the reachable input `"2147483647 1 +"`: both
operands are valid `i32` literals, yet the claim's exact sum
`2147483648` exceeds `i32::MAX` and cannot be produced — release-mode
Rust wraps the addition to `-2147483648` (the model's result) and
debug-mode Rust traps, so the stack `[b+a]` the claim describes is not
produced either way. -/
theorem claim3_counterexample :
    (Forth.eval Forth.new "2147483647 1 +").2 = none
    ∧ (Forth.eval Forth.new "2147483647 1 +").1.stack = [-2147483648]
    ∧ ((2147483647 : Int) + 1 = 2147483648)
    ∧ ((-2147483648 : Int) ≠ 2147483648) := by
  decide

/-- C3 amended: each arithmetic instruction pops `a` (top) then `b`
(second) and pushes the single `i32` result: the two's-complement
reduction `wrap_i32` of `b+a`, `b-a`, `b*a` — which is exactly `b+a`,
`b-a`, `b*a` whenever that value fits in `i32` — and for `Div` the
truncating quotient `b/a` (`Int.tdiv`) when the divisor is nonzero and
`(b, a)` is not the trapping pair `(i32::MIN, -1)`; `evaluate("3 4 -")`
renders `"-1"`, and `7 / -2` truncates to `-3`. -/
theorem claim3_arith_results (a b : Int) (s : List Int) :
    run_items (a :: b :: s) [Item.exec_ (Exec.arith_ ArithWord.add)] =
      (wrap_i32 (b + a) :: s, none)
    ∧ run_items (a :: b :: s) [Item.exec_ (Exec.arith_ ArithWord.sub)] =
      (wrap_i32 (b - a) :: s, none)
    ∧ run_items (a :: b :: s) [Item.exec_ (Exec.arith_ ArithWord.mul)] =
      (wrap_i32 (b * a) :: s, none)
    ∧ (-2147483648 ≤ b + a → b + a < 2147483648 → wrap_i32 (b + a) = b + a)
    ∧ (-2147483648 ≤ b - a → b - a < 2147483648 → wrap_i32 (b - a) = b - a)
    ∧ (-2147483648 ≤ b * a → b * a < 2147483648 → wrap_i32 (b * a) = b * a)
    ∧ (a ≠ 0 → -2147483648 ≤ b → b < 2147483648 → ¬(b = -2147483648 ∧ a = -1) →
        run_items (a :: b :: s) [Item.exec_ (Exec.arith_ ArithWord.div)] =
          (Int.tdiv b a :: s, none))
    ∧ format_stack (Forth.eval Forth.new "3 4 -").1 = "-1"
    ∧ run_items [(-2 : Int), 7] [Item.exec_ (Exec.arith_ ArithWord.div)] = ([-3], none) := by
  refine ⟨rfl, rfl, rfl, wrap_i32_eq_self _, wrap_i32_eq_self _, wrap_i32_eq_self _, ?_,
    by decide, by decide⟩
  intro ha hb1 hb2 hex
  have hrange := tdiv_in_i32_range a b ha hb1 hb2 hex
  simp [run_items, eval_oper_div_ne_zero a b ha,
    wrap_i32_eq_self (Int.tdiv b a) hrange.1 hrange.2]

/-- Witness for the amended C3: the division case at `a = 2`, `b = 7`. -/
theorem claim3_arith_results_witness :
    run_items ((2 : Int) :: 7 :: []) [Item.exec_ (Exec.arith_ ArithWord.div)] = ([3], none) := by
  exact (claim3_arith_results 2 7 []).2.2.2.2.2.2.1 (by decide) (by decide) (by decide)
    (by decide)

/-- C5: the Resolver turns a token that parses as an `i32` literal into
exactly `[Literal(v)]`, for every dictionary (so no lookup can influence
the result); a token that neither parses nor is a dictionary key fails
with `UnknownWord`. -/
theorem claim5_resolver (wm : WordMap) (s : String) :
    (∀ v : Int, parse_i32 s = some v →
        str_to_item wm s = Except.ok [Item.exec_ (Exec.value_ v)])
    ∧ (parse_i32 s = none → wm_lookup wm (str_upper s) = none →
        str_to_item wm s = Except.error Error.unknownWord) := by
  constructor
  · intro v h
    unfold str_to_item
    rw [h]
  · intro h1 h2
    unfold str_to_item
    rw [h1, h2]

/-- Witness for C5: the token `"7"` resolves to `[Literal(7)]` even when
the dictionary binds `"7"`, and `"FROBNICATE"` is an unknown word. -/
theorem claim5_resolver_witness :
    str_to_item (wm_insert make_word_map "7" [Item.exec_ (Exec.stack_ StackWord.dup)]) "7" =
      Except.ok [Item.exec_ (Exec.value_ 7)]
    ∧ str_to_item make_word_map "FROBNICATE" = Except.error Error.unknownWord :=
  ⟨(claim5_resolver _ "7").1 7 (by decide),
   (claim5_resolver _ "FROBNICATE").2 (by decide) (by decide)⟩

/-- C10 as stated fails nowhere: on a one-element stack `Swap` and every
arithmetic instruction pop the lone element and fail with
`StackUnderflow`, leaving the stack empty, while `Dup`, `Drop` and
`Over` fail without popping (`Over` keeps the lone element; `Dup` and
`Drop` underflow only on the empty stack, which they leave empty). -/
theorem claim10_underflow_pops (x : Int) (o : ArithWord) :
    run_items [x] [Item.exec_ (Exec.arith_ o)] = ([], some Error.stackUnderflow)
    ∧ run_items [x] [Item.exec_ (Exec.stack_ StackWord.swap)] = ([], some Error.stackUnderflow)
    ∧ run_items [x] [Item.exec_ (Exec.stack_ StackWord.over)] = ([x], some Error.stackUnderflow)
    ∧ run_items [] [Item.exec_ (Exec.stack_ StackWord.dup)] = ([], some Error.stackUnderflow)
    ∧ run_items [] [Item.exec_ (Exec.stack_ StackWord.drop)] = ([], some Error.stackUnderflow) :=
  ⟨rfl, rfl, rfl, rfl, rfl⟩

/-- C1 is refuted at `": FOO : ; ;"`: the line parses successfully, the
stored body of the custom word `FOO` is the single Marker `Colon`, and
the executable sequence handed to the Evaluator is the single Marker
`SemiColon` — so neither "bodies contain only Instruction items" nor
"Markers never reach the Evaluator" holds. -/
theorem claim1_counterexample :
    (input_parse make_word_map ": FOO : ; ;").2 = none
    ∧ (input_parse make_word_map ": FOO : ; ;").1.items = [Item.symbol_ Symbol.semiColon]
    ∧ marker_free (input_parse make_word_map ": FOO : ; ;").1.items = false
    ∧ wm_lookup (input_parse make_word_map ": FOO : ; ;").1.wm "FOO" =
        some [Item.symbol_ Symbol.colon]
    ∧ marker_free [Item.symbol_ Symbol.colon] = false := by
  decide

/-- C1 amended: Marker items can reach both stored bodies and the
executable sequence (witness `": FOO : ; ;"`), but the Evaluator skips
every `Symbol_` item, so Markers never affect the stack; the witness
line evaluates without error and leaves the stack empty. -/
theorem claim1_markers_inert :
    (∀ (stack : List Int) (s : Symbol) (rest : List Item),
      run_items stack (Item.symbol_ s :: rest) = run_items stack rest)
    ∧ (Forth.eval Forth.new ": FOO : ; ;").2 = none
    ∧ (Forth.eval Forth.new ": FOO : ; ;").1.stack = [] :=
  ⟨fun _ _ _ => rfl, by decide, by decide⟩

/-- Unfolding `parse_token` in the `Normal` state, with the state match reduced. -/
theorem parse_token_normal (acc : PAcc) (t : String)
    (hst : acc.state = ParseState.normal) :
    parse_token acc t =
      match str_to_item acc.wm t with
      | Except.ok v =>
          match v.getLast? with
          | none => Except.error Error.invalidWord
          | some last =>
              if last = Item.symbol_ Symbol.colon then
                Except.ok { acc with state := ParseState.customInit }
              else
                Except.ok { acc with items := acc.items ++ v }
      | Except.error e => Except.error e := by
  unfold parse_token
  rw [hst]

/-- Unfolding `parse_token` in the `CustomInit` state, with the state match reduced. -/
theorem parse_token_customInit (acc : PAcc) (t : String)
    (hst : acc.state = ParseState.customInit) :
    parse_token acc t =
      match str_to_item acc.wm t with
      | Except.ok v =>
          match v.getLast? with
          | none => Except.error Error.invalidWord
          | some last =>
              if is_value_item last then Except.error Error.invalidWord
              else
                Except.ok { acc with
                  state := ParseState.custom, curr := t,
                  wm := wm_insert acc.wm t [] }
      | Except.error _ =>
          Except.ok { acc with
            state := ParseState.custom, curr := t,
            wm := wm_insert acc.wm t [] } := by
  unfold parse_token
  rw [hst]

/-- Unfolding `parse_token` in the `Custom` (body) state, with the state match
reduced. -/
theorem parse_token_custom (acc : PAcc) (t : String)
    (hst : acc.state = ParseState.custom) :
    parse_token acc t =
      match str_to_item acc.wm t with
      | Except.ok v =>
          match v.getLast? with
          | none => Except.error Error.invalidWord
          | some last =>
              if last = Item.symbol_ Symbol.semiColon then
                Except.ok { acc with state := ParseState.normal }
              else
                Except.ok { acc with wm := wm_append acc.wm acc.curr v }
      | Except.error e => Except.error e := by
  unfold parse_token
  rw [hst]

/-- A parse error surfaces from `Forth::eval` with the stack untouched
and the word map as the parser left it. -/
theorem eval_parse_error (f : Forth) (input : String) (acc : PAcc) (e : Error)
    (h : input_parse f.wordMap input = (acc, some e)) :
    Forth.eval f input = ({ wordMap := acc.wm, stack := f.stack }, some e) := by
  unfold Forth.eval
  rw [h]

/-- When the token loop succeeds but ends outside `Normal`, `input_parse`
returns `InvalidWord` with the loop's final word map. -/
theorem input_parse_of_state (wm : WordMap) (input : String)
    (h : (parse_tokens (init_acc wm) (tokenize input)).2 = none)
    (h2 : (parse_tokens (init_acc wm) (tokenize input)).1.state ≠ ParseState.normal) :
    input_parse wm input =
      ((parse_tokens (init_acc wm) (tokenize input)).1, some Error.invalidWord) := by
  unfold input_parse
  rcases hp : parse_tokens (init_acc wm) (tokenize input) with ⟨acc, e⟩
  rw [hp] at h h2
  cases e with
  | some e2 => simp at h
  | none =>
      cases hs : acc.state with
      | normal => exact absurd hs h2
      | customInit => simp [hs]
      | custom => simp [hs]

/-- C6 amended: in the `NameExpected` state a token whose resolution
succeeds with a `Literal` last item, or succeeds with an empty item
list, fails with `InvalidWord`; a successful resolution whose last item
is not a `Literal`, and a failed (`UnknownWord`) resolution, are both
permitted and install the token as the new word's name with an empty
body; `evaluate(": 1 DUP ;")` returns `InvalidWord`. -/
theorem claim6_name_restriction (acc : PAcc) (t : String)
    (hst : acc.state = ParseState.customInit) :
    (∀ (v : List Item) (n : Int), str_to_item acc.wm t = Except.ok v →
        v.getLast? = some (Item.exec_ (Exec.value_ n)) →
        parse_token acc t = Except.error Error.invalidWord)
    ∧ (str_to_item acc.wm t = Except.ok [] →
        parse_token acc t = Except.error Error.invalidWord)
    ∧ (∀ (v : List Item) (i : Item), str_to_item acc.wm t = Except.ok v →
        v.getLast? = some i → is_value_item i = false →
        parse_token acc t =
          Except.ok { acc with
            state := ParseState.custom, curr := t,
            wm := wm_insert acc.wm t [] })
    ∧ (∀ e : Error, str_to_item acc.wm t = Except.error e →
        parse_token acc t =
          Except.ok { acc with
            state := ParseState.custom, curr := t,
            wm := wm_insert acc.wm t [] })
    ∧ (Forth.eval Forth.new ": 1 DUP ;").2 = some Error.invalidWord := by
  refine ⟨?_, ?_, ?_, ?_, by decide⟩
  · intro v n hres hlast
    rw [parse_token_customInit acc t hst, hres]
    simp [hlast, is_value_item]
  · intro hres
    rw [parse_token_customInit acc t hst, hres]
    rfl
  · intro v i hres hlast hval
    rw [parse_token_customInit acc t hst, hres]
    simp [hlast, hval]
  · intro e hres
    rw [parse_token_customInit acc t hst, hres]

/-- Witness for the amended C6: over the builtin dictionary, the numeric
token `"1"` is rejected as a definition name. -/
theorem claim6_name_restriction_witness :
    parse_token name_acc "1" = Except.error Error.invalidWord :=
  (claim6_name_restriction name_acc "1" rfl).1
    [Item.exec_ (Exec.value_ 1)] 1 (by decide) (by decide)

/-- C6 is refuted at `": A ; : A DUP ;"`: at the second name position the
token `A` resolves successfully to the empty body `[]` — an outcome
other than "last item is a `Literal`", hence permitted per the claim —
yet the parser fails with `InvalidWord`, as does the whole evaluation. -/
theorem claim6_counterexample :
    str_to_item (wm_insert make_word_map "A" []) "A" = Except.ok []
    ∧ ([] : List Item).getLast? = none
    ∧ parse_token
        { items := [], state := ParseState.customInit, curr := "A",
          wm := wm_insert make_word_map "A" [] } "A" = Except.error Error.invalidWord
    ∧ parse_tokens (init_acc make_word_map) [":", "A", ";", ":"] =
        ({ items := [], state := ParseState.customInit, curr := "A",
           wm := wm_insert make_word_map "A" [] }, none)
    ∧ (Forth.eval Forth.new ": A ; : A DUP ;").2 = some Error.invalidWord := by
  decide

/-- C9: in the `Normal` and `Body` states a token resolving to the empty
item list fails with `InvalidWord`; concretely `evaluate(": FOO ; FOO")`
(where `FOO` gets an empty body and is then used) fails with
`InvalidWord`. -/
theorem claim9_empty_resolution (acc : PAcc) (t : String)
    (h : str_to_item acc.wm t = Except.ok []) :
    (acc.state = ParseState.normal → parse_token acc t = Except.error Error.invalidWord)
    ∧ (acc.state = ParseState.custom → parse_token acc t = Except.error Error.invalidWord)
    ∧ (Forth.eval Forth.new ": FOO ; FOO").2 = some Error.invalidWord := by
  refine ⟨?_, ?_, by decide⟩
  · intro hst
    rw [parse_token_normal acc t hst, h]
    rfl
  · intro hst
    rw [parse_token_custom acc t hst, h]
    rfl

/-- Witness for C9: resolving the empty-bodied word `FOO` in the
`Normal` state fails with `InvalidWord`. -/
theorem claim9_empty_resolution_witness :
    parse_token { items := [], state := ParseState.normal, curr := "", wm := empty_foo_wm }
      "FOO" = Except.error Error.invalidWord :=
  (claim9_empty_resolution
    { items := [], state := ParseState.normal, curr := "", wm := empty_foo_wm }
    "FOO" (by decide)).1 rfl

/-- C7: when the token loop finishes without error but outside the
`Normal` state (an unterminated colon definition), `evaluate` fails with
`InvalidWord`, the stack is untouched, and no instruction of the line is
executed; the dictionary keeps the partially built entry. -/
theorem claim7_unterminated (f : Forth) (input : String)
    (h : (parse_tokens (init_acc f.wordMap) (tokenize input)).2 = none)
    (h2 : (parse_tokens (init_acc f.wordMap) (tokenize input)).1.state ≠ ParseState.normal) :
    Forth.eval f input =
      ({ wordMap := (parse_tokens (init_acc f.wordMap) (tokenize input)).1.wm,
         stack := f.stack }, some Error.invalidWord) :=
  eval_parse_error f input _ _ (input_parse_of_state f.wordMap input h h2)

/-- Witness for C7: `evaluate(": FOO 1 2")` on a fresh interpreter fails
with `InvalidWord` and leaves the stack empty. -/
theorem claim7_unterminated_witness :
    Forth.eval Forth.new ": FOO 1 2" =
      ({ wordMap := (parse_tokens (init_acc Forth.new.wordMap) (tokenize ": FOO 1 2")).1.wm,
         stack := [] }, some Error.invalidWord) := by
  exact claim7_unterminated Forth.new ": FOO 1 2" (by decide) (by decide)

/-- Inserting under one key leaves lookups of other keys unchanged. -/
theorem wm_lookup_insert_ne (m : WordMap) (k2 k : String) (v : List Item)
    (h : k2 ≠ k) :
    wm_lookup (wm_insert m k2 v) k = wm_lookup m k := by
  induction m with
  | nil => simp [wm_insert, wm_lookup, h]
  | cons p rest ih =>
      obtain ⟨ka, va⟩ := p
      by_cases h2 : ka = k2
      · subst h2
        simp [wm_insert, wm_lookup, h]
      · simp [wm_insert, wm_lookup, h2, ih]

/-- Appending to one key's body leaves lookups of other keys unchanged. -/
theorem wm_lookup_append_ne (m : WordMap) (k2 k : String) (v : List Item)
    (h : k2 ≠ k) :
    wm_lookup (wm_append m k2 v) k = wm_lookup m k := by
  induction m with
  | nil => simp [wm_append, wm_lookup]
  | cons p rest ih =>
      obtain ⟨ka, va⟩ := p
      by_cases h2 : ka = k2
      · subst h2
        simp [wm_append, wm_lookup, h, ih]
      · simp [wm_append, wm_lookup, h2, ih]

/-- A successful `parse_token` step can only touch the dictionary at the
token itself or at the current custom-word name: every other key keeps
its binding, and the current name stays different from that key. -/
theorem parse_token_lookup_preserved (acc : PAcc) (t k : String) (acc' : PAcc)
    (ht : t ≠ k) (hc : acc.curr ≠ k) (h : parse_token acc t = Except.ok acc') :
    wm_lookup acc'.wm k = wm_lookup acc.wm k ∧ acc'.curr ≠ k := by
  cases hstate : acc.state with
  | normal =>
      rw [parse_token_normal acc t hstate] at h
      cases hr : str_to_item acc.wm t with
      | ok v =>
          simp only [hr] at h
          cases hl : v.getLast? with
          | none => simp [hl] at h
          | some last =>
              simp only [hl] at h
              split at h
              · injection h with h4
                subst h4
                exact ⟨rfl, hc⟩
              · injection h with h4
                subst h4
                exact ⟨rfl, hc⟩
      | error e => simp [hr] at h
  | customInit =>
      rw [parse_token_customInit acc t hstate] at h
      cases hr : str_to_item acc.wm t with
      | ok v =>
          simp only [hr] at h
          cases hl : v.getLast? with
          | none => simp [hl] at h
          | some last =>
              simp only [hl] at h
              split at h
              · simp at h
              · injection h with h4
                subst h4
                exact ⟨wm_lookup_insert_ne acc.wm t k [] ht, ht⟩
      | error e =>
          simp only [hr] at h
          injection h with h4
          subst h4
          exact ⟨wm_lookup_insert_ne acc.wm t k [] ht, ht⟩
  | custom =>
      rw [parse_token_custom acc t hstate] at h
      cases hr : str_to_item acc.wm t with
      | ok v =>
          simp only [hr] at h
          cases hl : v.getLast? with
          | none => simp [hl] at h
          | some last =>
              simp only [hl] at h
              split at h
              · injection h with h4
                subst h4
                exact ⟨rfl, hc⟩
              · injection h with h4
                subst h4
                exact ⟨wm_lookup_append_ne acc.wm acc.curr k v hc, hc⟩
      | error e => simp [hr] at h

/-- Over a whole token sequence, a key named by no token and different
from the active custom-word name keeps its dictionary binding, also
when the loop stops early with an error. -/
theorem parse_tokens_lookup_preserved (ts : List String) (acc : PAcc) (k : String)
    (hts : ∀ t ∈ ts, t ≠ k) (hc : acc.curr ≠ k) :
    wm_lookup (parse_tokens acc ts).1.wm k = wm_lookup acc.wm k := by
  induction ts generalizing acc with
  | nil => rfl
  | cons t ts2 ih =>
      unfold parse_tokens
      cases hp : parse_token acc t with
      | ok acc2 =>
          have hpre := parse_token_lookup_preserved acc t k acc2
            (hts t (List.mem_cons_self t ts2)) hc hp
          simp only [hp]
          rw [ih acc2 (fun u hu => hts u (List.mem_cons_of_mem t hu)) hpre.2, hpre.1]
      | error e =>
          simp only [hp]

/-- The parser state `input_parse` returns is the token loop's final
state, whether or not the parse succeeds. -/
theorem input_parse_fst (wm : WordMap) (input : String) :
    (input_parse wm input).1 = (parse_tokens (init_acc wm) (tokenize input)).1 := by
  unfold input_parse
  split
  · next acc e h => rw [h]
  · next acc h =>
      split
      · rw [h]
      · rw [h]

/-- The word map `Forth::eval` ends with is the one the token loop built,
in the success case and in every error case. -/
theorem eval_wordMap (f : Forth) (input : String) :
    (Forth.eval f input).1.wordMap =
      (parse_tokens (init_acc f.wordMap) (tokenize input)).1.wm := by
  have h1 : (Forth.eval f input).1.wordMap = (input_parse f.wordMap input).1.wm := by
    unfold Forth.eval
    split
    · next acc e h => rw [h]
    · next acc h =>
        split
        next stack2 e2 h2 => rw [h]
  rw [h1, input_parse_fst]

/-- C4: definition bodies are inlined at definition time — evaluating any
line none of whose tokens equals `k` leaves `k`'s stored body unchanged,
so redefining another word (here `DUP`) never changes the behavior of a
word that was defined using it; concretely, after `": FOO DUP ;"` and
`": DUP DROP ;"`, `FOO` still stores the original `Dup` instruction and
`evaluate("3 FOO")` renders `"3 3"`. -/
theorem claim4_inlining :
    (∀ (f : Forth) (input : String) (k : String), k ≠ "" →
      (∀ t ∈ tokenize input, t ≠ k) →
      wm_lookup (Forth.eval f input).1.wordMap k = wm_lookup f.wordMap k)
    ∧ wm_lookup forth_after_foo.wordMap "FOO" =
        some [Item.exec_ (Exec.stack_ StackWord.dup)]
    ∧ (Forth.eval forth_after_foo ": DUP DROP ;").2 = none
    ∧ wm_lookup (Forth.eval forth_after_foo ": DUP DROP ;").1.wordMap "FOO" =
        some [Item.exec_ (Exec.stack_ StackWord.dup)]
    ∧ (Forth.eval (Forth.eval forth_after_foo ": DUP DROP ;").1 "3 FOO").2 = none
    ∧ format_stack (Forth.eval (Forth.eval forth_after_foo ": DUP DROP ;").1 "3 FOO").1 =
        "3 3" := by
  refine ⟨?_, by decide, by decide, by decide, by decide, by decide⟩
  intro f input k hk hts
  rw [eval_wordMap]
  exact parse_tokens_lookup_preserved (tokenize input) (init_acc f.wordMap) k hts
    (Ne.symm hk)

/-- Witness for C4: the line `": DUP DROP ;"` redefines `DUP` but leaves
`FOO`'s stored (inlined) body untouched. -/
theorem claim4_inlining_witness :
    wm_lookup (Forth.eval forth_after_foo ": DUP DROP ;").1.wordMap "FOO" =
      wm_lookup forth_after_foo.wordMap "FOO" :=
  claim4_inlining.1 forth_after_foo ": DUP DROP ;" "FOO" (by decide) (by decide)

/-- Decimal digit characters are not whitespace. -/
theorem digit_char_not_ws (d : Nat) : is_whitespace (digit_char d) = false := by
  unfold digit_char
  split_ifs <;> decide

/-- Every character `nat_digits_core` adds to a whitespace-free
accumulator is a digit, hence not whitespace. -/
theorem nat_digits_core_ws (fuel : Nat) :
    ∀ (n : Nat) (acc : List Char), (∀ c ∈ acc, is_whitespace c = false) →
      ∀ c ∈ nat_digits_core fuel n acc, is_whitespace c = false := by
  induction fuel with
  | zero => exact fun n acc h => h
  | succ fuel ih =>
      intro n acc h c hc
      rw [nat_digits_core] at hc
      split_ifs at hc with h10
      · rcases List.mem_cons.mp hc with h2 | h2
        · subst h2
          exact digit_char_not_ws n
        · exact h c h2
      · refine ih (n / 10) (digit_char (n % 10) :: acc) ?_ c hc
        intro c2 hc2
        rcases List.mem_cons.mp hc2 with h2 | h2
        · subst h2
          exact digit_char_not_ws (n % 10)
        · exact h c2 h2

/-- Function `nat_digits_core` never returns the empty list when it has fuel or a
nonempty accumulator. -/
theorem nat_digits_core_ne_nil (fuel : Nat) :
    ∀ (n : Nat) (acc : List Char), fuel ≠ 0 ∨ acc ≠ [] →
      nat_digits_core fuel n acc ≠ [] := by
  induction fuel with
  | zero =>
      intro n acc h
      rcases h with h | h
      · exact absurd rfl h
      · exact h
  | succ fuel ih =>
      intro n acc _
      rw [nat_digits_core]
      split_ifs with h10
      · exact List.cons_ne_nil _ _
      · exact ih (n / 10) (digit_char (n % 10) :: acc) (Or.inr (List.cons_ne_nil _ _))

/-- The decimal text of a value is nonempty. -/
theorem value_to_string_ne_nil (v : Int) : value_to_string v ≠ [] := by
  unfold value_to_string
  split_ifs
  · exact List.cons_ne_nil _ _
  · exact nat_digits_core_ne_nil _ _ _ (Or.inl (Nat.succ_ne_zero _))

/-- No character of a value's decimal text is whitespace. -/
theorem value_to_string_ws (v : Int) :
    ∀ c ∈ value_to_string v, is_whitespace c = false := by
  unfold value_to_string
  split_ifs
  · intro c hc
    rcases List.mem_cons.mp hc with h2 | h2
    · subst h2
      decide
    · exact nat_digits_core_ws _ _ _ (by intro c2 hc2; simp at hc2) c h2
  · exact nat_digits_core_ws _ _ _ (by intro c2 hc2; simp at hc2)

/-- Rendering `spec_render` of a nonempty stack is nonempty. -/
theorem spec_render_ne_nil (v : Int) (rest : List Int) :
    spec_render (v :: rest) ≠ [] := by
  cases rest with
  | nil => exact value_to_string_ne_nil v
  | cons w r =>
      rw [spec_render]
      intro h
      rcases List.append_eq_nil.mp h with ⟨h1, -⟩
      exact value_to_string_ne_nil v h1

/-- The first character of `spec_render` of a nonempty stack is not
whitespace. -/
theorem spec_render_head (v : Int) (rest : List Int) :
    ∀ c, (spec_render (v :: rest)).head? = some c → is_whitespace c = false := by
  intro c hc
  obtain ⟨d, t, hvts⟩ : ∃ d t, value_to_string v = d :: t := by
    rcases hv : value_to_string v with _ | ⟨d, t⟩
    · exact absurd hv (value_to_string_ne_nil v)
    · exact ⟨d, t, rfl⟩
  have hd : d ∈ value_to_string v := by
    rw [hvts]
    exact List.mem_cons_self d t
  cases rest with
  | nil =>
      rw [spec_render, hvts] at hc
      injection hc with hc
      subst hc
      exact value_to_string_ws v d hd
  | cons w r =>
      rw [spec_render, hvts] at hc
      injection hc with hc
      subst hc
      exact value_to_string_ws v d hd

/-- The last character of `spec_render` of a nonempty stack is not
whitespace. -/
theorem spec_render_getLast (vs : List Int) :
    ∀ c, (spec_render vs).getLast? = some c → is_whitespace c = false := by
  induction vs with
  | nil =>
      intro c hc
      simp [spec_render] at hc
  | cons v rest ih =>
      intro c hc
      cases rest with
      | nil =>
          rw [spec_render] at hc
          have : c ∈ value_to_string v := by
            rcases List.mem_getLast?_eq_getLast (Option.mem_def.mpr hc) with ⟨h2, h3⟩
            exact h3 ▸ List.getLast_mem h2
          exact value_to_string_ws v c this
      | cons w r =>
          rw [spec_render] at hc
          rw [List.getLast?_append_of_ne_nil (value_to_string v)
            (List.cons_ne_nil _ _)] at hc
          rcases hsr : spec_render (w :: r) with _ | ⟨d, t⟩
          · exact absurd hsr (spec_render_ne_nil w r)
          · rw [hsr, List.getLast?_cons_cons] at hc
            rw [← hsr] at hc
            exact ih c hc

/-- Applying `dropWhile` is the identity on a list whose first character is not
whitespace. -/
theorem dropWhile_ws_eq_self (l : List Char)
    (h : ∀ c, l.head? = some c → is_whitespace c = false) :
    l.dropWhile is_whitespace = l := by
  cases l with
  | nil => rfl
  | cons a t =>
      rw [List.dropWhile_cons, if_neg]
      rw [h a rfl]
      simp

/-- Trimming is the identity on text with no whitespace at either end,
and removes exactly one trailing space appended to such text. -/
theorem trim_chars_of_clean (x : List Char)
    (h1 : ∀ c, x.head? = some c → is_whitespace c = false)
    (h2 : ∀ c, x.getLast? = some c → is_whitespace c = false) :
    trim_chars x = x ∧ trim_chars (x ++ [' ']) = x := by
  cases hx : x with
  | nil => constructor <;> decide
  | cons a t =>
      rw [← hx]
      have hdrop : x.dropWhile is_whitespace = x := dropWhile_ws_eq_self x h1
      have hrev : x.reverse.dropWhile is_whitespace = x.reverse := by
        refine dropWhile_ws_eq_self x.reverse ?_
        intro c hc
        rw [List.head?_reverse] at hc
        exact h2 c hc
      constructor
      · unfold trim_chars
        rw [hdrop, hrev, List.reverse_reverse]
      · unfold trim_chars
        have hdrop2 : (x ++ [' ']).dropWhile is_whitespace = x ++ [' '] := by
          refine dropWhile_ws_eq_self (x ++ [' ']) ?_
          intro c hc
          rw [hx] at hc
          rw [List.cons_append, List.head?_cons] at hc
          injection hc with hc
          subst hc
          exact h1 a (by rw [hx]; rfl)
        rw [hdrop2, List.reverse_append]
        have : ([' '].reverse ++ x.reverse).dropWhile is_whitespace = x.reverse := by
          have hsp : ([' '].reverse ++ x.reverse) = ' ' :: x.reverse := rfl
          rw [hsp, List.dropWhile_cons, if_pos (by decide)]
          exact hrev
        rw [this, List.reverse_reverse]

/-- The `format_stack` fold builds `raw_render` after the accumulator. -/
theorem foldl_raw_render (vs : List Int) :
    ∀ acc : List Char,
      vs.foldl (fun a v => a ++ value_to_string v ++ [' ']) acc = acc ++ raw_render vs := by
  induction vs with
  | nil =>
      intro acc
      simp [raw_render]
  | cons v rest ih =>
      intro acc
      rw [List.foldl_cons, ih, raw_render]
      simp [List.append_assoc]

/-- On a nonempty stack the raw fold output is the spec rendering plus
one trailing space. -/
theorem raw_render_eq_spec (vs : List Int) (h : vs ≠ []) :
    raw_render vs = spec_render vs ++ [' '] := by
  induction vs with
  | nil => exact absurd rfl h
  | cons v rest ih =>
      cases rest with
      | nil => simp [raw_render, spec_render]
      | cons w r =>
          rw [raw_render, ih (List.cons_ne_nil w r)]
          conv_rhs => rw [spec_render]
          simp

/-- C8: `format_stack` produces exactly the spec's rendering — the
decimal representations of the stack bottom-to-top, single-space
separated (`spec_render` of the reversed value stack, whose head is the
top) — the empty stack renders as empty text, and the result carries no
leading or trailing whitespace (trimming it again changes nothing).
`format_stack` is a pure function of the state, so it never modifies the
stack and repeated calls agree. -/
theorem claim8_render_stack (f : Forth) :
    format_stack f = String.mk (spec_render f.stack.reverse)
    ∧ format_stack { wordMap := f.wordMap, stack := [] } = ""
    ∧ trim_chars (spec_render f.stack.reverse) = spec_render f.stack.reverse := by
  have key : ∀ vs : List Int,
      trim_chars (vs.foldl (fun a v => a ++ value_to_string v ++ [' ']) []) = spec_render vs
      ∧ trim_chars (spec_render vs) = spec_render vs := by
    intro vs
    rw [foldl_raw_render vs [], List.nil_append]
    cases hvs : vs with
    | nil => exact ⟨rfl, rfl⟩
    | cons v rest =>
        have htrim := trim_chars_of_clean (spec_render (v :: rest))
          (spec_render_head v rest) (spec_render_getLast (v :: rest))
        rw [raw_render_eq_spec (v :: rest) (List.cons_ne_nil v rest)]
        exact ⟨htrim.2, htrim.1⟩
  refine ⟨?_, ?_, (key f.stack.reverse).2⟩
  · unfold format_stack
    rw [(key f.stack.reverse).1]
  · rfl

end ForthSpec
